import Mathlib

/-!
Verification of the asynchronous-aggregation benchmark
(`afl_bench/experiments/rate_tracker.py` and `afl_bench/experiments/utils.py`)
against its natural-language specification.

Python floats are modelled as `ℚ` (exact arithmetic; every float value the
claims exercise is representable), Python lists as `List`, tensors as a
shape together with a flat data list, and fallible Python code (raising
`AssertionError`, `ZeroDivisionError`, `ValueError`, `KeyError`,
`IndexError`, `RuntimeError`) as `Except String`.
-/

/-- `mapME f xs` is the Lean rendering of a Python list comprehension
`[f(x) for x in xs]` in which `f` may raise: the first raise aborts the
whole comprehension. -/
def mapME (f : α → Except String β) : List α → Except String (List β)
  | [] => .ok []
  | x :: xs =>
    match f x with
    | .error e => .error e
    | .ok b =>
      match mapME f xs with
      | .error e => .error e
      | .ok bs => .ok (b :: bs)

/-!
## RateTracker (`rate_tracker.py`, class `RateTracker`)

`self.client_update` is a `defaultdict(list)`: modelled as an
insertion-ordered association list from client id to the list of recorded
timestamps, with `[]` as the default value of an absent key.
-/

structure RateTracker where
  window_size : Nat
  client_update : List (Nat × List ℚ)
deriving DecidableEq

/-- A fresh `RateTracker(window_size)`: `self.client_update = defaultdict(list)`. -/
def RateTracker.mk0 (window_size : Nat) : RateTracker :=
  ⟨window_size, []⟩

/-- Reading `self.client_update[client_id]` (the defaultdict yields `[]` for
an absent key). -/
def RateTracker.window (tr : RateTracker) (client_id : Nat) : List ℚ :=
  match tr.client_update.lookup client_id with
  | some l => l
  | none => []

/-- Writing `self.client_update[client_id] = l`: replace the entry in place,
or append it at the end (Python dicts preserve insertion order). -/
def setWindow (m : List (Nat × List ℚ)) (client_id : Nat) (l : List ℚ) :
    List (Nat × List ℚ) :=
  match m with
  | [] => [(client_id, l)]
  | (k, v) :: rest =>
    if k = client_id then (k, l) :: rest
    else (k, v) :: setWindow rest client_id l

/-- Merely accessing `self.client_update[client_id]` on a `defaultdict`
inserts the default `[]` for an absent key; `get_rate` does this. -/
def RateTracker.touch (tr : RateTracker) (client_id : Nat) : RateTracker :=
  match tr.client_update.lookup client_id with
  | some _ => tr
  | none => ⟨tr.window_size, tr.client_update ++ [(client_id, [])]⟩

/-- `RateTracker.track_update(client_id)`, with `time.time()` passed in
explicitly as `now`:

    if len(self.client_update[client_id]) >= self.window_size:
        self.client_update[client_id].pop()
    self.client_update[client_id].append(time.time())

Python `list.pop()` with no argument removes the LAST element, modelled by
`dropLast`.  (`pop()` on an empty list would raise `IndexError`; that is
reachable only with `window_size = 0`, and every theorem below about
`track_update` assumes `1 ≤ window_size` — the program always uses the
default `window_size = 5`.) -/
def RateTracker.track_update (tr : RateTracker) (now : ℚ) (client_id : Nat) :
    RateTracker :=
  let l := tr.window client_id
  let l' := if tr.window_size ≤ l.length then l.dropLast else l
  ⟨tr.window_size, setWindow tr.client_update client_id (l' ++ [now])⟩

/-- `RateTracker.get_rate(client_id)`:

    if len(self.client_update[client_id]) < 2:
        return 0.0
    return len(self.client_update[client_id]) / (
        self.client_update[client_id][-1] - self.client_update[client_id][0])

The division raises `ZeroDivisionError` when the newest and oldest retained
timestamps are equal. -/
def RateTracker.get_rate (tr : RateTracker) (client_id : Nat) : Except String ℚ :=
  let l := tr.window client_id
  if l.length < 2 then .ok 0
  else if l.getLastD 0 - l.headD 0 = 0 then
    .error "ZeroDivisionError: float division by zero"
  else .ok ((l.length : ℚ) / (l.getLastD 0 - l.headD 0))

/-- `RateTracker.get_rate_total()`: sum of `get_rate` over every key of the
defaultdict (in insertion order); any `ZeroDivisionError` propagates. -/
def RateTracker.get_rate_total (tr : RateTracker) : Except String ℚ :=
  match mapME (fun kv => tr.get_rate kv.1) tr.client_update with
  | .error e => .error e
  | .ok rs => .ok rs.sum

/-!
## Tensors and torch operations

A tensor is a shape plus a flat data list over `ℚ`.  The torch operations
used by `aggregation_func` (`t - old_t`, `w * t`,
`torch.sum(torch.stack(ts, 0), 0)`, `global_param + update`) are modelled
elementwise; an elementwise operation on tensors of unequal shape is
modelled as raising (torch broadcasting is never exercised by this
program, whose tensors all come from the same model architecture). -/

structure Tensor where
  shape : List Nat
  data : List ℚ
deriving DecidableEq

/-- A tensor is well formed when its flat data has exactly as many entries
as its shape prescribes (true of every real torch tensor). -/
def Tensor.wf (t : Tensor) : Prop :=
  t.data.length = t.shape.prod

instance (t : Tensor) : Decidable t.wf := by
  unfold Tensor.wf; infer_instance

/-- `t - old_t` (elementwise subtraction of same-shaped tensors). -/
def tsub (a b : Tensor) : Except String Tensor :=
  if a.shape = b.shape then
    .ok ⟨a.shape, a.data.zipWith (fun x y => x - y) b.data⟩
  else .error "RuntimeError: tensor shape mismatch"

/-- `w * t` (scalar multiplication). -/
def tsmul (w : ℚ) (a : Tensor) : Tensor :=
  ⟨a.shape, a.data.map (fun x => w * x)⟩

/-- `a + b` (elementwise addition of same-shaped tensors). -/
def tadd (a b : Tensor) : Except String Tensor :=
  if a.shape = b.shape then
    .ok ⟨a.shape, a.data.zipWith (fun x y => x + y) b.data⟩
  else .error "RuntimeError: tensor shape mismatch"

/-- `torch.sum(torch.stack(ts, 0), 0)`: elementwise sum of a batch of
tensors.  `torch.stack` raises on an empty list and when the stacked
tensors do not all share one shape. -/
def stackSum : List Tensor → Except String Tensor
  | [] => .error "RuntimeError: stack expects a non-empty TensorList"
  | t :: ts =>
    if ts.all (fun u => u.shape = t.shape) then
      .ok ⟨t.shape, ts.foldl (fun acc u => acc.zipWith (fun x y => x + y) u.data) t.data⟩
    else .error "RuntimeError: stack expects each tensor to be equal size"

/-- Python `"bn" in param_name` (substring membership), on char lists. -/
def startsWithChars : List Char → List Char → Bool
  | [], _ => true
  | _ :: _, [] => false
  | p :: ps, c :: cs => p = c && startsWithChars ps cs

/-- Substring search, as Python's `in` on strings. -/
def containsSub (pat : List Char) : List Char → Bool
  | [] => startsWithChars pat []
  | c :: cs => startsWithChars pat (c :: cs) || containsSub pat cs

/-- `"bn" in param_name` for the normalization-statistics exclusion. -/
def containsBn (s : String) : Bool :=
  containsSub "bn".toList s.toList

/-!
## ClientUpdate and the weighting pipeline (`aggregation_func`)
-/

/-- One element of `client_updates`, a tuple
`(client_id, old_params, new_params, prev_model_version)` as unpacked by
`zip(*client_updates)` in `aggregation_func`. -/
structure ClientUpdate where
  client_id : Nat
  old_params : List (String × Tensor)
  new_params : List (String × Tensor)
  prev_model_version : Nat
deriving DecidableEq

/-- `rate_ratios = [rate_tracker.get_rate(cid) / rate_total if rate_total > 0
else 0 for cid in client_ids]`, after `rate_total =
rate_tracker.get_rate_total()`.  Python's conditional expression evaluates
`get_rate` only when `rate_total > 0`. -/
def rate_ratios_of (tr : RateTracker) (client_ids : List Nat) :
    Except String (List ℚ) :=
  match tr.get_rate_total with
  | .error e => .error e
  | .ok rate_total =>
    mapME (fun cid =>
      if 0 < rate_total then
        match tr.get_rate cid with
        | .error e => .error e
        | .ok r => .ok (r / rate_total)
      else .ok 0) client_ids

/-- `weights = [1.0 / (num_clients) if ratio > 0 else 0 for ratio in
rate_ratios]`; the division `1.0 / num_clients` is evaluated only when
`ratio > 0` and raises when `num_clients == 0`. -/
def raw_weights (num_clients : Nat) (rs : List ℚ) : Except String (List ℚ) :=
  mapME (fun r =>
    if 0 < r then
      if num_clients = 0 then .error "ZeroDivisionError: float division by zero"
      else .ok ((1 : ℚ) / num_clients)
    else .ok 0) rs

/-- `weights = [weight / weight_total if weight_total > 0 else 0 for weight
in weights]`. -/
def renormalize (ws : List ℚ) : List ℚ :=
  let weight_total := ws.sum
  ws.map (fun w => if 0 < weight_total then w / weight_total else 0)

/-- The whole weight computation of `aggregation_func` (rates, ratios, raw
equal-share weights, renormalization). -/
def round_weights (num_clients : Nat) (tr : RateTracker)
    (client_ids : List Nat) : Except String (List ℚ) :=
  match rate_ratios_of tr client_ids with
  | .error e => .error e
  | .ok rs =>
    match raw_weights num_clients rs with
    | .error e => .error e
    | .ok raw => .ok (renormalize raw)

/-!
## The per-parameter merge loop of `aggregation_func`
-/

/-- Python `zip(*lists)`: transpose with truncation to the shortest list
(`zip()` of an empty argument list yields nothing). -/
def pyZipStar (ls : List (List α)) : List (List α) :=
  match ls with
  | [] => []
  | l0 :: _ =>
    let n := ls.foldl (fun m l => min m l.length) l0.length
    (List.range n).map (fun i => ls.filterMap (fun l => l.get? i))

/-- Python `zip(a, b, c)` (truncating). -/
def zip3 (a : List α) (b : List β) (c : List γ) : List (α × β × γ) :=
  (a.zip (b.zip c)).map (fun x => (x.1, x.2.1, x.2.2))

/-- One iteration of the `for ... in zip(zip(*new_models), zip(*old_models),
global_model)` loop of `aggregation_func`.  `row` is
`(param_names_and_tensors, old_param_names_and_tensors,
(global_param_name, global_param))`; the `assert` statements are rendered
as `AssertionError`, in source order:

    param_name = param_names_and_tensors[0][0]
    assert param_name == global_param_name
    assert len(weights) == len(param_names_and_tensors)
    raw_updates = [t - old_t for (_, t), (_, old_t) in zip(...)]
    normalized_update = [raw_update for raw_update in raw_updates]
    weighted_updates = [w * t for w, t in zip(weights, normalized_update)]
    assert param_names_and_tensors[0][1].shape == global_param.shape
    computed_update = torch.sum(torch.stack(weighted_updates, 0), 0)
    new_param = global_param + computed_update
    append (param_name, new_param if "bn" not in param_name else global_param)
-/
def merge_row (weights : List ℚ)
    (row : List (String × Tensor) × List (String × Tensor) × (String × Tensor)) :
    Except String (String × Tensor) :=
  match row with
  | (pnts, opnts, (global_param_name, global_param)) =>
    match pnts with
    | [] => .error "IndexError: tuple index out of range"
    | (param_name, pt0) :: _ =>
      if param_name ≠ global_param_name then .error "AssertionError" else
      if weights.length ≠ pnts.length then .error "AssertionError" else
      match mapME (fun p => tsub p.1.2 p.2.2) (pnts.zip opnts) with
      | .error e => .error e
      | .ok raw_updates =>
        let normalized_update := raw_updates
        let weighted_updates :=
          (weights.zip normalized_update).map (fun p => tsmul p.1 p.2)
        if pt0.shape ≠ global_param.shape then .error "AssertionError" else
        match stackSum weighted_updates with
        | .error e => .error e
        | .ok computed_update =>
          match tadd global_param computed_update with
          | .error e => .error e
          | .ok new_param =>
            .ok (param_name,
                 if containsBn param_name then global_param else new_param)

/-- The final sanity loop of `aggregation_func`:

    for a, b in zip(global_model, new_global_model):
        assert a[0] == b[0]
        assert a[1].shape == b[1].shape
-/
def sanity_check : List ((String × Tensor) × (String × Tensor)) →
    Except String Unit
  | [] => .ok ()
  | (a, b) :: rest =>
    if a.1 ≠ b.1 then .error "AssertionError" else
    if a.2.shape ≠ b.2.shape then .error "AssertionError" else
    sanity_check rest

/-- `aggregation_func(global_model_and_version, client_updates)` from
`rate_tracker.py`, with the module-level globals passed explicitly:
`num_clients` (the number of configured client runtimes), the mutable
global `rate_tracker`, and the `time.time()` value `now` used by the
`track_update` calls.  Returns the mutated tracker together with
`new_global_model`.

`client_ids, old_models, new_models, prev_model_versions =
tuple(zip(*client_updates))` raises `ValueError` on an empty batch
(unpacking `tuple(zip())` = `()` into four names). -/
def aggregation_func (num_clients : Nat) (now : ℚ) (rate_tracker : RateTracker)
    (global_model : List (String × Tensor)) (_version : Nat)
    (client_updates : List ClientUpdate) :
    Except String (RateTracker × List (String × Tensor)) :=
  match client_updates with
  | [] => .error "ValueError: not enough values to unpack (expected 4, got 0)"
  | _ :: _ =>
    let client_ids := client_updates.map (fun u => u.client_id)
    let old_models := client_updates.map (fun u => u.old_params)
    let new_models := client_updates.map (fun u => u.new_params)
    match round_weights num_clients rate_tracker client_ids with
    | .error e => .error e
    | .ok weights =>
      let tracker :=
        client_ids.foldl (fun t cid => t.track_update now cid) rate_tracker
      let rows := zip3 (pyZipStar new_models) (pyZipStar old_models) global_model
      match mapME (merge_row weights) rows with
      | .error e => .error e
      | .ok new_global_model =>
        match sanity_check (global_model.zip new_global_model) with
        | .error e => .error e
        | .ok _ => .ok (tracker, new_global_model)

/-!
## Client-runtime mini-language (`utils.py`, `get_cmd_line_parser`)

    raw_clients = arguments["client_info"].split(",")
    for raw_client in raw_clients:
        match = re.search(r"\[(\d+)\]", raw_client)
        if match:
            num_of_type = int(match.group(1))
        else:
            num_of_type = 1
        client_runtime_constructor = CLIENT_TYPE_TO_MODEL[raw_client[0]]
        client_params = [
            float(x) for x in raw_client[1 : raw_client.index("[")].split("/")
        ]
        for _ in range(num_of_type):
            arguments["client_runtimes"].append(
                client_runtime_constructor(*client_params))
-/

/-- A constructed runtime model: `CLIENT_TYPE_TO_MODEL` maps `"i"` to
`InstantRuntime` and `"g"` to `GaussianRuntime` (external classes; only the
constructor arguments matter here). -/
inductive RuntimeSpec
  | instant (params : List ℚ)
  | gaussian (params : List ℚ)
deriving DecidableEq

/-- Digits to a natural number. -/
def digitsToNat (ds : List Char) : Nat :=
  ds.foldl (fun n c => n * 10 + (c.toNat - 48)) 0

/-- Python `float(x)` on the decimal literals this mini-language uses:
an optional sign, then `digits`, `digits.digits`, `.digits` or `digits.`;
anything else raises `ValueError`.  (The full `float` grammar also accepts
exponents and `inf`/`nan`, which the mini-language never uses.) -/
def parseFloat (s : List Char) : Except String ℚ :=
  let signed := match s with
    | '-' :: rest => ((-1 : ℚ), rest)
    | '+' :: rest => ((1 : ℚ), rest)
    | _ => ((1 : ℚ), s)
  let sign := signed.1
  let t := signed.2
  let ip := t.takeWhile Char.isDigit
  let rest := t.dropWhile Char.isDigit
  match rest with
  | [] =>
    if ip.isEmpty then .error "ValueError: could not convert string to float"
    else .ok (sign * digitsToNat ip)
  | '.' :: fp =>
    if fp.all Char.isDigit && !(ip.isEmpty && fp.isEmpty) then
      .ok (sign * ((digitsToNat ip : ℚ) + (digitsToNat fp : ℚ) / (10 ^ fp.length)))
    else .error "ValueError: could not convert string to float"
  | _ => .error "ValueError: could not convert string to float"

/-- Python `str.split("/")`: always yields at least one (possibly empty)
piece. -/
def splitSlash : List Char → List (List Char)
  | [] => [[]]
  | c :: rest =>
    let ps := splitSlash rest
    if c = '/' then [] :: ps
    else match ps with
      | [] => [[c]]
      | p :: ps' => (c :: p) :: ps'

/-- Does `re.search(r"\[(\d+)\]", s)` match at the head of `s`?  If so,
return the captured count. -/
def bracketCountAt (s : List Char) : Option Nat :=
  match s with
  | '[' :: rest =>
    let ds := rest.takeWhile Char.isDigit
    match rest.dropWhile Char.isDigit with
    | ']' :: _ => if ds.isEmpty then none else some (digitsToNat ds)
    | _ => none
  | _ => none

/-- `re.search(r"\[(\d+)\]", s)`: the leftmost match. -/
def searchBracketCount : List Char → Option Nat
  | [] => none
  | c :: rest =>
    match bracketCountAt (c :: rest) with
    | some n => some n
    | none => searchBracketCount rest

/-- One iteration of the `for raw_client in raw_clients` loop: parse a
single comma-separated token into its replicated worker specs.  Failure
paths, in source order: `IndexError` on an empty token (`raw_client[0]`),
`KeyError` for an unknown type code, `ValueError` from
`raw_client.index("[")` when no `[` occurs, `ValueError` from `float`. -/
def parse_client (raw_client : List Char) : Except String (List RuntimeSpec) :=
  let num_of_type := (searchBracketCount raw_client).getD 1
  match raw_client with
  | [] => .error "IndexError: string index out of range"
  | c :: _ =>
    if c ≠ 'i' && c ≠ 'g' then .error "KeyError" else
    match raw_client.findIdx? (fun ch => ch = '[') with
    | none => .error "ValueError: substring not found"
    | some bidx =>
      match mapME parseFloat (splitSlash ((raw_client.drop 1).take (bidx - 1))) with
      | .error e => .error e
      | .ok client_params =>
        .ok (List.replicate num_of_type
          (if c = 'i' then RuntimeSpec.instant client_params
           else RuntimeSpec.gaussian client_params))

/-- Python `str.split(",")` on char lists. -/
def splitComma : List Char → List (List Char)
  | [] => [[]]
  | c :: rest =>
    let ps := splitComma rest
    if c = ',' then [] :: ps
    else match ps with
      | [] => [[c]]
      | p :: ps' => (c :: p) :: ps'

/-- The whole `client_runtimes` construction from the `--client-info`
string. -/
def parse_client_info (s : List Char) : Except String (List RuntimeSpec) :=
  match mapME parse_client (splitComma s) with
  | .error e => .error e
  | .ok groups => .ok groups.flatten

/-!
## General lemmas about the embedding's building blocks
-/

theorem mapME_ok_length {f : α → Except String β} :
    ∀ {l : List α} {out : List β}, mapME f l = .ok out → out.length = l.length := by
  intro l
  induction l with
  | nil => intro out h; simp [mapME] at h; simp [← h]
  | cons x xs ih =>
    intro out h
    simp only [mapME] at h
    cases hx : f x with
    | error e => rw [hx] at h; exact absurd h (by simp)
    | ok b =>
      rw [hx] at h
      cases hxs : mapME f xs with
      | error e => rw [hxs] at h; exact absurd h (by simp)
      | ok bs =>
        rw [hxs] at h
        cases h
        simp [ih hxs]

theorem mapME_ok_get {f : α → Except String β} :
    ∀ {l : List α} {out : List β}, mapME f l = .ok out →
      ∀ i a, l.get? i = some a → ∃ b, out.get? i = some b ∧ f a = .ok b := by
  intro l
  induction l with
  | nil => intro out _ i a ha; simp at ha
  | cons x xs ih =>
    intro out h i a ha
    simp only [mapME] at h
    cases hx : f x with
    | error e => rw [hx] at h; exact absurd h (by simp)
    | ok b =>
      rw [hx] at h
      cases hxs : mapME f xs with
      | error e => rw [hxs] at h; exact absurd h (by simp)
      | ok bs =>
        rw [hxs] at h
        cases h
        cases i with
        | zero => cases ha; exact ⟨b, rfl, hx⟩
        | succ j => exact ih hxs j a ha

theorem mapME_ok_mem {f : α → Except String β} :
    ∀ {l : List α} {out : List β}, mapME f l = .ok out →
      ∀ b ∈ out, ∃ a ∈ l, f a = .ok b := by
  intro l
  induction l with
  | nil =>
    intro out h b hb
    simp [mapME] at h
    rw [h] at hb
    simp at hb
  | cons x xs ih =>
    intro out h b hb
    simp only [mapME] at h
    cases hx : f x with
    | error e => rw [hx] at h; exact absurd h (by simp)
    | ok b0 =>
      rw [hx] at h
      cases hxs : mapME f xs with
      | error e => rw [hxs] at h; exact absurd h (by simp)
      | ok bs =>
        rw [hxs] at h
        cases h
        rw [List.mem_cons] at hb
        rcases hb with hb | hb
        · exact ⟨x, by simp, hb ▸ hx⟩
        · obtain ⟨a, hal, hfa⟩ := ih hxs b hb
          exact ⟨a, by simp [hal], hfa⟩

theorem mapME_const_ok {f : α → Except String β} {c : β} :
    ∀ {l : List α}, (∀ a ∈ l, f a = .ok c) →
      mapME f l = .ok (List.replicate l.length c) := by
  intro l
  induction l with
  | nil => intro _; simp [mapME]
  | cons x xs ih =>
    intro h
    simp only [mapME]
    rw [h x (by simp), ih (fun a ha => h a (by simp [ha]))]
    simp [List.replicate]

theorem sum_map_div (l : List ℚ) (c : ℚ) :
    (l.map (fun x => x / c)).sum = l.sum / c := by
  induction l with
  | nil => simp
  | cons x xs ih => simp [ih, div_add_div_same]

theorem zip3_get?_some {a : List α} {b : List β} {c : List γ}
    {i : Nat} {x : α} {y : β} {z : γ} :
    (zip3 a b c).get? i = some (x, y, z) ↔
      (a.get? i = some x ∧ b.get? i = some y ∧ c.get? i = some z) := by
  simp only [zip3, List.get?_map]
  constructor
  · intro h
    cases hab : (a.zip (b.zip c)).get? i with
    | none => rw [hab] at h; simp at h
    | some p =>
      rw [hab] at h
      obtain ⟨p1, p2, p3⟩ := p
      cases h
      rw [List.get?_zip_eq_some] at hab
      obtain ⟨h1, h2⟩ := hab
      rw [List.get?_zip_eq_some] at h2
      exact ⟨h1, h2.1, h2.2⟩
  · rintro ⟨h1, h2, h3⟩
    have : (a.zip (b.zip c)).get? i = some (x, (y, z)) := by
      rw [List.get?_zip_eq_some]
      exact ⟨h1, by rw [List.get?_zip_eq_some]; exact ⟨h2, h3⟩⟩
    rw [this]
    simp

theorem foldl_min_len_const {ls : List (List α)} {L : Nat}
    (h : ∀ l ∈ ls, l.length = L) :
    ls.foldl (fun m l => min m l.length) L = L := by
  induction ls with
  | nil => rfl
  | cons x xs ih =>
    have hx : x.length = L := h x (by simp)
    simp only [List.foldl_cons, hx, min_self]
    exact ih (fun l hl => h l (by simp [hl]))

theorem pyZipStar_length_const {ls : List (List α)} {L : Nat}
    (hne : ls ≠ []) (h : ∀ l ∈ ls, l.length = L) :
    (pyZipStar ls).length = L := by
  cases ls with
  | nil => exact absurd rfl hne
  | cons l0 rest =>
    have h0 : l0.length = L := h l0 (by simp)
    simp only [pyZipStar, List.length_map, List.length_range]
    rw [h0]
    exact foldl_min_len_const h

theorem pyZipStar_get?_eq {ls : List (List α)} {L i : Nat}
    (hne : ls ≠ []) (h : ∀ l ∈ ls, l.length = L) (hi : i < L) :
    (pyZipStar ls).get? i = some (ls.filterMap (fun l => l.get? i)) := by
  cases ls with
  | nil => exact absurd rfl hne
  | cons l0 rest =>
    have h0 : l0.length = L := h l0 (by simp)
    simp only [pyZipStar, List.get?_map]
    rw [h0, foldl_min_len_const h, List.get?_range hi]
    rfl

theorem filterMap_get?_length {ls : List (List α)} {i : Nat}
    (h : ∀ l ∈ ls, i < l.length) :
    (ls.filterMap (fun l => l.get? i)).length = ls.length := by
  induction ls with
  | nil => rfl
  | cons x xs ih =>
    have hx : i < x.length := h x (by simp)
    have ha : x.get? i = some (x.get ⟨i, hx⟩) := List.get?_eq_get hx
    simp only [List.filterMap_cons, ha, List.length_cons]
    rw [ih (fun l hl => h l (by simp [hl]))]

theorem mem_filterMap_get? {ls : List (List α)} {i : Nat} {x : α}
    (hx : x ∈ ls.filterMap (fun l => l.get? i)) :
    ∃ l ∈ ls, x ∈ l := by
  rw [List.mem_filterMap] at hx
  obtain ⟨l, hl, hget⟩ := hx
  exact ⟨l, hl, List.get?_mem hget⟩

theorem filterMap_get?_get? {ls : List (List α)} {i j : Nat} {x : α}
    (h : ∀ l ∈ ls, i < l.length)
    (hx : (ls.filterMap (fun l => l.get? i)).get? j = some x) :
    ∃ l, ls.get? j = some l ∧ l.get? i = some x := by
  induction ls generalizing j with
  | nil => simp at hx
  | cons l0 rest ih =>
    have h0 : i < l0.length := h l0 (by simp)
    have ha : l0.get? i = some (l0.get ⟨i, h0⟩) := List.get?_eq_get h0
    simp only [List.filterMap_cons] at hx
    rw [ha] at hx
    cases j with
    | zero =>
      simp at hx
      exact ⟨l0, rfl, by rw [ha]; simpa using hx⟩
    | succ k =>
      simp only [List.get?_cons_succ] at hx ⊢
      exact ih (fun l hl => h l (by simp [hl])) hx

theorem zipWith_add_right_zero :
    ∀ {l1 l2 : List ℚ}, (∀ y ∈ l2, y = 0) → l1.length ≤ l2.length →
      List.zipWith (fun x y => x + y) l1 l2 = l1 := by
  intro l1
  induction l1 with
  | nil => intro l2 _ _; simp
  | cons x xs ih =>
    intro l2 hz hl
    cases l2 with
    | nil => simp at hl
    | cons y ys =>
      have hy : y = 0 := hz y (by simp)
      simp only [List.zipWith_cons_cons, hy, add_zero]
      rw [ih (fun z hzm => hz z (by simp [hzm])) (by simpa using hl)]

theorem zipWith_add_zeros :
    ∀ {l1 l2 : List ℚ}, (∀ x ∈ l1, x = 0) → (∀ y ∈ l2, y = 0) →
      ∀ z ∈ List.zipWith (fun x y => x + y) l1 l2, z = 0 := by
  intro l1
  induction l1 with
  | nil => intro l2 _ _ z hz; simp at hz
  | cons x xs ih =>
    intro l2 h1 h2 z hz
    cases l2 with
    | nil => simp at hz
    | cons y ys =>
      simp only [List.zipWith_cons_cons, List.mem_cons] at hz
      rcases hz with hz | hz
      · rw [hz, h1 x (by simp), h2 y (by simp), add_zero]
      · exact ih (fun a ha => h1 a (by simp [ha]))
          (fun a ha => h2 a (by simp [ha])) z hz

theorem lookup_setWindow_self (m : List (Nat × List ℚ)) (id : Nat) (l : List ℚ) :
    List.lookup id (setWindow m id l) = some l := by
  induction m with
  | nil => simp [setWindow, List.lookup]
  | cons kv rest ih =>
    obtain ⟨k, v⟩ := kv
    simp only [setWindow]
    by_cases hk : k = id
    · simp [hk, List.lookup]
    · simp only [if_neg hk, List.lookup]
      have : (id == k) = false := by
        simp [Nat.beq_eq_true_eq]
        exact fun h => hk h.symm
      rw [this]
      exact ih

theorem lookup_setWindow_ne (m : List (Nat × List ℚ)) {id id' : Nat}
    (l : List ℚ) (hne : id' ≠ id) :
    List.lookup id' (setWindow m id l) = List.lookup id' m := by
  induction m with
  | nil =>
    simp only [setWindow, List.lookup]
    have : (id' == id) = false := by simpa [Nat.beq_eq_true_eq] using hne
    rw [this]
  | cons kv rest ih =>
    obtain ⟨k, v⟩ := kv
    simp only [setWindow]
    by_cases hk : k = id
    · subst hk
      have : (id' == k) = false := by simpa [Nat.beq_eq_true_eq] using hne
      simp [List.lookup, this]
    · simp only [if_neg hk, List.lookup]
      cases hbeq : (id' == k) with
      | true => rfl
      | false => exact ih

theorem headD_mem {l : List ℚ} (h : l ≠ []) (d : ℚ) : l.headD d ∈ l := by
  cases l with
  | nil => exact absurd rfl h
  | cons x xs => simp

theorem getLastD_mem {l : List ℚ} (h : l ≠ []) (d : ℚ) : l.getLastD d ∈ l := by
  cases l with
  | nil => exact absurd rfl h
  | cons x xs =>
    rw [List.getLastD_eq_getLast?, List.getLast?_eq_getLast (x :: xs) (by simp)]
    simp only [Option.getD_some]
    exact List.getLast_mem _

theorem foldl_zipWith_zeros {M : Nat} :
    ∀ (ts : List Tensor) (acc : List ℚ),
      (∀ x ∈ acc, x = 0) → M ≤ acc.length →
      (∀ t ∈ ts, (∀ x ∈ t.data, x = 0) ∧ M ≤ t.data.length) →
      (∀ x ∈ ts.foldl (fun a u => a.zipWith (fun x y => x + y) u.data) acc, x = 0) ∧
        M ≤ (ts.foldl (fun a u => a.zipWith (fun x y => x + y) u.data) acc).length := by
  intro ts
  induction ts with
  | nil => intro acc h1 h2 _; exact ⟨h1, h2⟩
  | cons t rest ih =>
    intro acc h1 h2 h3
    simp only [List.foldl_cons]
    apply ih
    · exact zipWith_add_zeros h1 (h3 t (by simp)).1
    · rw [List.length_zipWith]
      exact le_min h2 (h3 t (by simp)).2
    · intro u hu
      exact h3 u (by simp [hu])

theorem stackSum_zeros {L : List Tensor} {c : Tensor} {M : Nat}
    (hok : stackSum L = .ok c)
    (h : ∀ t ∈ L, (∀ x ∈ t.data, x = 0) ∧ M ≤ t.data.length) :
    (∀ x ∈ c.data, x = 0) ∧ M ≤ c.data.length := by
  cases L with
  | nil => simp [stackSum] at hok
  | cons t ts =>
    simp only [stackSum] at hok
    split at hok
    · have hc :
          c = ⟨t.shape, ts.foldl (fun a u => a.zipWith (fun x y => x + y) u.data) t.data⟩ := by
        cases hok
        rfl
      rw [hc]
      exact foldl_zipWith_zeros ts t.data (h t (by simp)).1 (h t (by simp)).2
        (fun u hu => h u (by simp [hu]))
    · exact absurd hok (by simp)

theorem merge_row_ok_parts {ws : List ℚ} {pnts opnts : List (String × Tensor)}
    {gname : String} {gparam : Tensor} {nm : String} {v : Tensor}
    (hok : merge_row ws (pnts, opnts, (gname, gparam)) = .ok (nm, v)) :
    ∃ pt0 rest raw computed new_param,
      pnts = (nm, pt0) :: rest ∧ nm = gname ∧ ws.length = pnts.length ∧
      mapME (fun p => tsub p.1.2 p.2.2) (pnts.zip opnts) = .ok raw ∧
      pt0.shape = gparam.shape ∧
      stackSum ((ws.zip raw).map (fun p => tsmul p.1 p.2)) = .ok computed ∧
      tadd gparam computed = .ok new_param ∧
      v = if containsBn nm then gparam else new_param := by
  cases pnts with
  | nil => simp [merge_row] at hok
  | cons hd tl =>
    obtain ⟨pn, pt0⟩ := hd
    simp only [merge_row] at hok
    split at hok
    · exact absurd hok (by simp)
    · rename_i hname
      split at hok
      · exact absurd hok (by simp)
      · rename_i hlen
        split at hok
        · exact absurd hok (by simp)
        · rename_i raw hraw
          split at hok
          · exact absurd hok (by simp)
          · rename_i hshape
            split at hok
            · exact absurd hok (by simp)
            · rename_i computed hstack
              split at hok
              · exact absurd hok (by simp)
              · rename_i new_param hadd
                rw [Except.ok.injEq, Prod.mk.injEq] at hok
                obtain ⟨hnm, hv⟩ := hok
                subst hnm
                refine ⟨pt0, tl, raw, computed, new_param, rfl,
                  not_not.mp hname, not_not.mp hlen, hraw,
                  not_not.mp hshape, hstack, hadd, hv.symm⟩

theorem aggregation_func_ok_parts {n : Nat} {now : ℚ} {tr : RateTracker}
    {g : List (String × Tensor)} {ver : Nat} {updates : List ClientUpdate}
    {tr' : RateTracker} {out : List (String × Tensor)}
    (hok : aggregation_func n now tr g ver updates = .ok (tr', out)) :
    updates ≠ [] ∧
    ∃ ws, round_weights n tr (updates.map (fun u => u.client_id)) = .ok ws ∧
      mapME (merge_row ws)
        (zip3 (pyZipStar (updates.map (fun u => u.new_params)))
              (pyZipStar (updates.map (fun u => u.old_params))) g) = .ok out ∧
      tr' = (updates.map (fun u => u.client_id)).foldl
              (fun t cid => t.track_update now cid) tr := by
  cases updates with
  | nil => simp [aggregation_func] at hok
  | cons u us =>
    simp only [aggregation_func] at hok
    split at hok
    · exact absurd hok (by simp)
    · rename_i ws hws
      split at hok
      · exact absurd hok (by simp)
      · rename_i ngm hngm
        split at hok
        · exact absurd hok (by simp)
        · rename_i un hsan
          rw [Except.ok.injEq, Prod.mk.injEq] at hok
          obtain ⟨h1, h2⟩ := hok
          subst h2
          exact ⟨by simp, ws, hws, hngm, h1.symm⟩

/-!
## Tracker window lemmas
-/

theorem window_track_update_self (tr : RateTracker) (now : ℚ) (id : Nat) :
    (tr.track_update now id).window id =
      (if tr.window_size ≤ (tr.window id).length then (tr.window id).dropLast
       else tr.window id) ++ [now] := by
  simp only [RateTracker.track_update, RateTracker.window]
  rw [lookup_setWindow_self]

theorem window_track_update_ne (tr : RateTracker) (now : ℚ) {id id' : Nat}
    (h : id' ≠ id) :
    (tr.track_update now id).window id' = tr.window id' := by
  simp only [RateTracker.track_update, RateTracker.window]
  rw [lookup_setWindow_ne _ _ h]

theorem track_update_window_size (tr : RateTracker) (now : ℚ) (id : Nat) :
    (tr.track_update now id).window_size = tr.window_size := rfl

theorem lookup_append_singleton (m : List (Nat × List ℚ)) (id id' : Nat) :
    List.lookup id' (m ++ [(id, [])]) =
      match List.lookup id' m with
      | some l => some l
      | none => if id' = id then some [] else none := by
  induction m with
  | nil =>
    simp only [List.nil_append, List.lookup]
    by_cases h : id' = id
    · have : (id' == id) = true := by simpa [Nat.beq_eq_true_eq] using h
      simp [this, h]
    · have : (id' == id) = false := by simpa [Nat.beq_eq_true_eq] using h
      simp [this, h]
  | cons kv rest ih =>
    obtain ⟨k, v⟩ := kv
    simp only [List.cons_append, List.lookup]
    cases hbeq : (id' == k) with
    | true => rfl
    | false => exact ih

theorem window_touch (tr : RateTracker) (id id' : Nat) :
    ((tr.touch id).window id') = tr.window id' := by
  simp only [RateTracker.touch]
  cases hl : tr.client_update.lookup id with
  | some l => rfl
  | none =>
    simp only [RateTracker.window, lookup_append_singleton]
    cases hl' : tr.client_update.lookup id' with
    | some l => rfl
    | none => by_cases h : id' = id <;> simp [h]

theorem touch_window_size (tr : RateTracker) (id : Nat) :
    (tr.touch id).window_size = tr.window_size := by
  simp only [RateTracker.touch]
  cases tr.client_update.lookup id <;> rfl

/-!
## Sequences of public RateTracker operations (for the window-bound
invariant): each `get_rate` call touches the defaultdict, each
`track_update` appends a timestamp.
-/

inductive TrackerOp where
  | track (now : ℚ) (client_id : Nat)
  | rate (client_id : Nat)

/-- The state effect of one public call: `track_update` mutates the window,
`get_rate` only performs the defaultdict access (its result is read-only). -/
def applyOp (tr : RateTracker) : TrackerOp → RateTracker
  | .track now cid => tr.track_update now cid
  | .rate cid => tr.touch cid

def applyOps (tr : RateTracker) (ops : List TrackerOp) : RateTracker :=
  ops.foldl applyOp tr

theorem applyOp_window_size (tr : RateTracker) (op : TrackerOp) :
    (applyOp tr op).window_size = tr.window_size := by
  cases op with
  | track now cid => rfl
  | rate cid => exact touch_window_size tr cid

theorem applyOp_bound {tr : RateTracker} {w : Nat} (hw : 1 ≤ w)
    (hws : tr.window_size = w)
    (h : ∀ id, (tr.window id).length ≤ w) (op : TrackerOp) :
    ∀ id, ((applyOp tr op).window id).length ≤ w := by
  intro id
  cases op with
  | rate cid => rw [applyOp, window_touch]; exact h id
  | track now cid =>
    by_cases hid : id = cid
    · subst hid
      rw [applyOp, window_track_update_self]
      by_cases hfull : tr.window_size ≤ (tr.window id).length
      · rw [if_pos hfull]
        have h1 : 1 ≤ (tr.window id).length := le_trans (hws ▸ hw) hfull
        have h2 := h id
        simp only [List.length_append, List.length_dropLast, List.length_cons,
          List.length_nil]
        omega
      · rw [if_neg hfull]
        rw [hws] at hfull
        simp only [List.length_append, List.length_cons, List.length_nil]
        omega
    · rw [applyOp, window_track_update_ne tr now hid]
      exact h id

theorem applyOps_bound {w : Nat} (hw : 1 ≤ w) :
    ∀ (ops : List TrackerOp) (tr : RateTracker), tr.window_size = w →
      (∀ i, (tr.window i).length ≤ w) →
      (∀ i, ((applyOps tr ops).window i).length ≤ w) := by
  intro ops
  induction ops with
  | nil => intro tr _ h2; exact h2
  | cons op rest ih =>
    intro tr h1 h2
    simp only [applyOps, List.foldl_cons]
    exact ih (applyOp tr op) (by rw [applyOp_window_size]; exact h1)
      (applyOp_bound hw h1 h2 op)

/-- Claim C9: for every sequence of `track_update` and `get_rate` calls on a
fresh `RateTracker` and every worker id, the retained timestamp list never
grows beyond `window_size` (assuming `window_size ≥ 1`; with
`window_size = 0` Python's `pop()` would raise before any overflow). -/
theorem C9_window_bounded (w : Nat) (hw : 1 ≤ w) (ops : List TrackerOp) (id : Nat) :
    ((applyOps (RateTracker.mk0 w) ops).window id).length ≤ w :=
  applyOps_bound hw ops (RateTracker.mk0 w) rfl
    (fun i => by simp [RateTracker.mk0, RateTracker.window, List.lookup]) id

/-- Witness for C9 at `window_size = 5` and a run of eight calls. -/
theorem C9_witness :
    ((applyOps (RateTracker.mk0 5)
        [TrackerOp.track 0 0, TrackerOp.track 1 0, TrackerOp.rate 0,
         TrackerOp.track 2 0, TrackerOp.track 3 0, TrackerOp.track 4 0,
         TrackerOp.track 5 0, TrackerOp.track 6 0]).window 0).length ≤ 5 :=
  C9_window_bounded 5 (by decide) _ 0

/-- Claim C1, counterexample: with the window for worker 0 full at
`[0, 1, 2, 3, 4]` (default `window_size = 5`), `track_update` at time 5
yields `[0, 1, 2, 3, 5]` — `pop()` evicted the NEWEST retained timestamp
(4), not the oldest (0), so the window does not hold the most recent five
report timestamps `[1, 2, 3, 4, 5]`. -/
theorem C1_counterexample :
    ((⟨5, [(0, [0, 1, 2, 3, 4])]⟩ : RateTracker).track_update 5 0).window 0 =
        [0, 1, 2, 3, 5] ∧
      ((⟨5, [(0, [0, 1, 2, 3, 4])]⟩ : RateTracker).track_update 5 0).window 0 ≠
        [1, 2, 3, 4, 5] := by
  constructor <;> decide

/-- Claim C1, amended: when a worker's window is already at capacity,
`track_update` evicts the MOST RECENTLY retained (last) timestamp — Python
`list.pop()` — before appending the current one, so the window keeps the
oldest `window_size - 1` timestamps plus the newest. -/
theorem C1_amended_evicts_newest (tr : RateTracker) (now : ℚ) (id : Nat)
    (hfull : tr.window_size ≤ (tr.window id).length) :
    (tr.track_update now id).window id = (tr.window id).dropLast ++ [now] := by
  rw [window_track_update_self, if_pos hfull]

/-- Witness for C1 (amended) on a concrete full window. -/
theorem C1_witness :
    ((⟨5, [(0, [0, 1, 2, 3, 4])]⟩ : RateTracker).track_update 9 0).window 0 =
      ([0, 1, 2, 3, 4] : List ℚ).dropLast ++ [9] :=
  C1_amended_evicts_newest _ 9 0 (by decide)

/-- Claim C7: the function `get_rate` returns 0.0 for fewer than two retained timestamps, and
otherwise the retained count divided by (newest − oldest) (timestamps are
recorded in increasing order, so the list's last element is the newest and
its head the oldest); on `[0, 1, 2]` this is `3 / 2 = 1.5`. -/
theorem C7_get_rate_formula (tr : RateTracker) (id : Nat) :
    ((tr.window id).length < 2 → tr.get_rate id = .ok 0) ∧
    (2 ≤ (tr.window id).length →
      (tr.window id).getLastD 0 - (tr.window id).headD 0 ≠ 0 →
      tr.get_rate id =
        .ok (((tr.window id).length : ℚ) /
          ((tr.window id).getLastD 0 - (tr.window id).headD 0))) ∧
    (tr.window id = [0, 1, 2] → tr.get_rate id = .ok (3 / 2)) := by
  refine ⟨?_, ?_, ?_⟩
  · intro h
    simp only [RateTracker.get_rate]
    rw [if_pos h]
  · intro h2 hne
    simp only [RateTracker.get_rate]
    rw [if_neg (by omega), if_neg hne]
  · intro h
    simp only [RateTracker.get_rate, h]
    norm_num

/-- Witness for C7: rate 1.5 on the window `[0, 1, 2]`, rate 0 on a
single-element window. -/
theorem C7_witness :
    (⟨5, [(0, [0, 1, 2])]⟩ : RateTracker).get_rate 0 = .ok (3 / 2) ∧
    (⟨5, [(1, [7])]⟩ : RateTracker).get_rate 1 = .ok 0 :=
  ⟨(C7_get_rate_formula _ 0).2.2 (by decide),
   (C7_get_rate_formula _ 1).1 (by decide)⟩

/-- Claim C10: with two or more retained timestamps all equal, `get_rate`
divides by `newest - oldest = 0` and raises `ZeroDivisionError`. -/
theorem C10_equal_timestamps_division_error (tr : RateTracker) (id : Nat)
    (c : ℚ) (hlen : 2 ≤ (tr.window id).length)
    (heq : ∀ x ∈ tr.window id, x = c) :
    tr.get_rate id = .error "ZeroDivisionError: float division by zero" := by
  have hne : tr.window id ≠ [] := by
    intro h
    rw [h] at hlen
    simp at hlen
  have h1 : (tr.window id).getLastD 0 = c := heq _ (getLastD_mem hne 0)
  have h2 : (tr.window id).headD 0 = c := heq _ (headD_mem hne 0)
  simp only [RateTracker.get_rate]
  rw [if_neg (by omega), h1, h2]
  simp

/-- Witness for C10, reached through the public interface alone: two
`track_update` calls in the same clock instant (`time.time()` returned the
same value twice), then `get_rate`. -/
theorem C10_witness :
    (((RateTracker.mk0 5).track_update 3 0).track_update 3 0).get_rate 0 =
      .error "ZeroDivisionError: float division by zero" :=
  C10_equal_timestamps_division_error _ 0 3 (by decide) (by decide)

/-- Claim C3, a code bug: an empty update batch is NOT handled as a no-op round —
`zip(*client_updates)` of an empty batch unpacks into four names and
raises `ValueError`, for every global state. -/
theorem C3_empty_batch_raises (n : Nat) (now : ℚ) (tr : RateTracker)
    (g : List (String × Tensor)) (ver : Nat) :
    aggregation_func n now tr g ver [] =
      .error "ValueError: not enough values to unpack (expected 4, got 0)" := rfl

/-- Claim C4, a code bug: a token WITHOUT the `[count]` suffix does not parse —
although `re.search` falls back to `num_of_type = 1`, the subsequent
`raw_client.index("[")` raises `ValueError` — while with `[count]` present
the token parses into exactly `count` replicas. -/
theorem C4_count_suffix_parsing :
    parse_client "i0.0".toList = .error "ValueError: substring not found" ∧
    parse_client "i0.0[1]".toList = .ok [RuntimeSpec.instant [0]] ∧
    parse_client "g0.0/2.0[3]".toList =
      .ok [RuntimeSpec.gaussian [0, 2], RuntimeSpec.gaussian [0, 2],
           RuntimeSpec.gaussian [0, 2]] := by
  refine ⟨rfl, ?_, ?_⟩ <;>
    simp [parse_client, searchBracketCount, bracketCountAt, splitSlash,
      parseFloat, digitsToNat, mapME, List.replicate]

/-- Claim C5: in a round, each raw weight is `1/num_clients` when the worker's
rate ratio is strictly positive and `0` otherwise (equal share, not
rate-proportional), and whenever the raw weight total is strictly positive
the renormalized weights sum to exactly 1 (so certainly within the spec's
`1e-6` tolerance). -/
theorem C5_weights_equal_share_and_renormalized (n : Nat) (tr : RateTracker)
    (client_ids : List Nat) (ratios raw ws : List ℚ)
    (hr : rate_ratios_of tr client_ids = .ok ratios)
    (hraw : raw_weights n ratios = .ok raw)
    (hws : round_weights n tr client_ids = .ok ws) :
    (∀ i r, ratios.get? i = some r →
      raw.get? i = some (if 0 < r then (1 : ℚ) / n else 0)) ∧
    (0 < raw.sum → ws.sum = 1 ∧ |ws.sum - 1| ≤ 1 / 1000000) := by
  constructor
  · intro i r hir
    rw [raw_weights] at hraw
    obtain ⟨b, hb, hfb⟩ := mapME_ok_get hraw i r hir
    by_cases h : 0 < r
    · rw [if_pos h] at hfb
      by_cases hn : n = 0
      · rw [if_pos hn] at hfb
        exact absurd hfb (by simp)
      · rw [if_neg hn, Except.ok.injEq] at hfb
        rw [hb, if_pos h, hfb]
    · rw [if_neg h, Except.ok.injEq] at hfb
      rw [hb, if_neg h, hfb]
  · intro hsum
    have hws' : ws = renormalize raw := by
      simp only [round_weights, hr, hraw, Except.ok.injEq] at hws
      exact hws.symm
    have hs : raw.sum ≠ 0 := ne_of_gt hsum
    have h1 : ws.sum = 1 := by
      rw [hws', renormalize]
      have : (fun w => if 0 < raw.sum then w / raw.sum else 0) =
          (fun w : ℚ => w / raw.sum) := by
        funext w
        rw [if_pos hsum]
      rw [this, sum_map_div, div_self hs]
    exact ⟨h1, by rw [h1]; norm_num⟩

/-- Witness for C5: one configured client whose window `[0, 1, 2]` gives
rate 3/2, hence ratio 1, raw weight 1 and renormalized weight 1. -/
theorem C5_witness :
    ([(1 : ℚ)].sum = 1) ∧ |([(1 : ℚ)].sum) - 1| ≤ 1 / 1000000 :=
  (C5_weights_equal_share_and_renormalized 1 ⟨5, [(0, [0, 1, 2])]⟩ [0]
      [1] [1] [1]
      (by simp [rate_ratios_of, RateTracker.get_rate_total, RateTracker.get_rate,
        RateTracker.window, List.lookup, mapME])
      (by simp [raw_weights, mapME])
      (by simp [round_weights, rate_ratios_of, RateTracker.get_rate_total,
        RateTracker.get_rate, RateTracker.window, List.lookup, mapME,
        raw_weights, renormalize])).2
    (by norm_num)

/-!
## Concrete fixtures for worked aggregation rounds
-/

/-- A one-element tensor of shape `[1]`. -/
def tval (x : ℚ) : Tensor := ⟨[1], [x]⟩

/-- A one-parameter global model. -/
def exG : List (String × Tensor) := [("conv.weight", tval 1)]

/-- A well-matched client update against `exG`. -/
def exU0 : ClientUpdate :=
  ⟨0, [("conv.weight", tval 1)], [("conv.weight", tval 2)], 0⟩

/-- A client update whose parameter name (in both `old_params` and
`new_params`) disagrees with the global parameter name. -/
def exU1 : ClientUpdate := ⟨1, [("X", tval 0)], [("X", tval 3)], 0⟩

/-- Claim C2, counterexample: a round whose SECOND update carries the parameter
name `"X"` where the global model has `"conv.weight"` completes without
any error — only the first update's names and shapes are ever asserted
against the global model, so the claimed fail-fast on "any mismatch in any
update" does not happen. -/
theorem C2_counterexample :
    aggregation_func 2 100 (RateTracker.mk0 5) exG 0 [exU0, exU1] =
      .ok (⟨5, [(0, [100]), (1, [100])]⟩, [("conv.weight", tval 1)]) ∧
    exU1.new_params.map Prod.fst = ["X"] ∧
    exU1.old_params.map Prod.fst = ["X"] ∧
    exG.map Prod.fst = ["conv.weight"] ∧
    ("X" : String) ≠ "conv.weight" := by
  refine ⟨?_, rfl, rfl, rfl, by decide⟩
  simp [aggregation_func, round_weights, rate_ratios_of, RateTracker.get_rate_total,
    RateTracker.get_rate, RateTracker.window, RateTracker.mk0, List.lookup, mapME,
    raw_weights, renormalize, RateTracker.track_update, setWindow, zip3, pyZipStar,
    merge_row, tsub, tsmul, tadd, stackSum, containsBn, containsSub, startsWithChars,
    sanity_check, tval, exG, exU0, exU1, List.replicate]

/-- Claim C2, amended: in every round that completes, the FIRST update's
parameter name at each merged position equals the global parameter name
there, and the FIRST update's tensor shape equals the global parameter's
shape — these are the only name/shape assertions `aggregation_func`
performs; mismatches in any later update (or in any `old_params`) are not
checked. -/
theorem C2_amended_first_update_checked (n : Nat) (now : ℚ) (tr : RateTracker)
    (g : List (String × Tensor)) (ver : Nat) (updates : List ClientUpdate)
    (tr' : RateTracker) (out : List (String × Tensor)) (i : Nat)
    (gname : String) (gval : Tensor)
    (prow orow : List (String × Tensor)) (pn : String) (pt0 : Tensor)
    (hok : aggregation_func n now tr g ver updates = .ok (tr', out))
    (hg : g.get? i = some (gname, gval))
    (hp : (pyZipStar (updates.map (fun u => u.new_params))).get? i = some prow)
    (ho : (pyZipStar (updates.map (fun u => u.old_params))).get? i = some orow)
    (hhead : prow.head? = some (pn, pt0)) :
    pn = gname ∧ pt0.shape = gval.shape := by
  obtain ⟨hne, ws, hws, hmap, htr⟩ := aggregation_func_ok_parts hok
  have hrow := zip3_get?_some.mpr ⟨hp, ho, hg⟩
  obtain ⟨b, hb, hmr⟩ := mapME_ok_get hmap i _ hrow
  obtain ⟨bn, bv⟩ := b
  obtain ⟨pt0', rest, raw, computed, new_param, hpnts, hnm, _, _, hshape, _, _, _⟩ :=
    merge_row_ok_parts hmr
  rw [hpnts] at hhead
  simp only [List.head?_cons, Option.some.injEq, Prod.mk.injEq] at hhead
  obtain ⟨h1, h2⟩ := hhead
  exact ⟨h1 ▸ hnm, h2 ▸ hshape⟩

/-- Witness for C2 (amended), at the same concrete round as the
counterexample: the first update's name and shape do agree with the global
parameter. -/
theorem C2_witness :
    ("conv.weight" : String) = "conv.weight" ∧ (tval 2).shape = (tval 1).shape :=
  C2_amended_first_update_checked 2 100 (RateTracker.mk0 5) exG 0 [exU0, exU1]
    ⟨5, [(0, [100]), (1, [100])]⟩ [("conv.weight", tval 1)] 0
    "conv.weight" (tval 1)
    [("conv.weight", tval 2), ("X", tval 3)]
    [("conv.weight", tval 1), ("X", tval 0)]
    "conv.weight" (tval 2)
    (by simp [aggregation_func, round_weights, rate_ratios_of,
      RateTracker.get_rate_total, RateTracker.get_rate, RateTracker.window,
      RateTracker.mk0, List.lookup, mapME, raw_weights, renormalize,
      RateTracker.track_update, setWindow, zip3, pyZipStar, merge_row, tsub,
      tsmul, tadd, stackSum, containsBn, containsSub, startsWithChars,
      sanity_check, tval, exG, exU0, exU1, List.replicate])
    rfl rfl rfl rfl

/-- Claim C6: in every completed round, a parameter whose name contains `"bn"`
is returned exactly as the prior global value, no matter what deltas the
workers submitted; every other parameter is the old global parameter plus
the weighted merged delta sum. -/
theorem C6_bn_exclusion (n : Nat) (now : ℚ) (tr : RateTracker)
    (g : List (String × Tensor)) (ver : Nat) (updates : List ClientUpdate)
    (tr' : RateTracker) (out : List (String × Tensor)) (ws : List ℚ) (i : Nat)
    (gname oname : String) (gval oval : Tensor)
    (prow orow : List (String × Tensor))
    (hok : aggregation_func n now tr g ver updates = .ok (tr', out))
    (hws : round_weights n tr (updates.map (fun u => u.client_id)) = .ok ws)
    (hg : g.get? i = some (gname, gval))
    (hout : out.get? i = some (oname, oval))
    (hp : (pyZipStar (updates.map (fun u => u.new_params))).get? i = some prow)
    (ho : (pyZipStar (updates.map (fun u => u.old_params))).get? i = some orow) :
    oname = gname ∧
    (containsBn oname = true → oval = gval) ∧
    (containsBn oname = false →
      ∃ raw computed,
        mapME (fun p => tsub p.1.2 p.2.2) (prow.zip orow) = .ok raw ∧
        stackSum ((ws.zip raw).map (fun p => tsmul p.1 p.2)) = .ok computed ∧
        tadd gval computed = .ok oval) := by
  obtain ⟨hne, ws', hws', hmap, htr⟩ := aggregation_func_ok_parts hok
  rw [hws] at hws'
  injection hws' with hwse
  subst hwse
  have hrow := zip3_get?_some.mpr ⟨hp, ho, hg⟩
  obtain ⟨b, hb, hmr⟩ := mapME_ok_get hmap i _ hrow
  rw [hout] at hb
  injection hb with hb
  subst hb
  obtain ⟨pt0, rest, raw, computed, new_param, hpnts, hnm, hlen, hraw, hshape,
    hstack, hadd, hv⟩ := merge_row_ok_parts hmr
  refine ⟨hnm, ?_, ?_⟩
  · intro hbn
    rw [hv, if_pos hbn]
  · intro hbn
    refine ⟨raw, computed, hraw, hstack, ?_⟩
    rw [hv, if_neg (by rw [hbn]; exact Bool.false_ne_true)]
    exact hadd

/-- A two-parameter global model containing a normalization (`"bn"`)
parameter. -/
def exG2 : List (String × Tensor) := [("conv.weight", tval 1), ("bn1.mean", tval 5)]

/-- An update submitting nonzero deltas for both parameters of `exG2`,
including the `"bn"` one. -/
def exU2 : ClientUpdate :=
  ⟨0, exG2, [("conv.weight", tval 2), ("bn1.mean", tval 9)], 0⟩

/-- A tracker in which worker 0 has the timestamp window `[0, 1, 2]`
(rate 3/2). -/
def exTr : RateTracker := ⟨5, [(0, [0, 1, 2])]⟩

/-- Witness for C6: a weight-1 round in which the `"bn1.mean"` parameter
keeps its prior global value 5 even though the worker submitted 9. -/
theorem C6_witness : ("bn1.mean" : String) = "bn1.mean" ∧ tval 5 = tval 5 := by
  have h := C6_bn_exclusion 1 100 exTr exG2 0 [exU2]
    ⟨5, [(0, [0, 1, 2, 100])]⟩
    [("conv.weight", tval 2), ("bn1.mean", tval 5)] [1] 1
    "bn1.mean" "bn1.mean" (tval 5) (tval 5)
    [("bn1.mean", tval 9)] [("bn1.mean", tval 5)]
    (by simp [aggregation_func, round_weights, rate_ratios_of,
      RateTracker.get_rate_total, RateTracker.get_rate, RateTracker.window,
      List.lookup, mapME, raw_weights, renormalize, RateTracker.track_update,
      setWindow, zip3, pyZipStar, merge_row, tsub, tsmul, tadd, stackSum,
      containsBn, containsSub, startsWithChars, sanity_check, tval, exG2, exU2,
      exTr, List.replicate])
    (by simp [round_weights, rate_ratios_of, RateTracker.get_rate_total,
      RateTracker.get_rate, RateTracker.window, List.lookup, mapME, raw_weights,
      renormalize, exTr, exU2])
    rfl rfl rfl rfl
  exact ⟨h.1, h.2.1 rfl⟩

theorem tsub_ok_parts {a b c : Tensor} (h : tsub a b = .ok c) :
    a.shape = b.shape ∧ c = ⟨a.shape, a.data.zipWith (fun x y => x - y) b.data⟩ := by
  by_cases hs : a.shape = b.shape
  · rw [tsub, if_pos hs, Except.ok.injEq] at h
    exact ⟨hs, h.symm⟩
  · rw [tsub, if_neg hs] at h
    exact absurd h (by simp)

theorem tadd_ok_parts {a b c : Tensor} (h : tadd a b = .ok c) :
    a.shape = b.shape ∧ c = ⟨a.shape, a.data.zipWith (fun x y => x + y) b.data⟩ := by
  by_cases hs : a.shape = b.shape
  · rw [tadd, if_pos hs, Except.ok.injEq] at h
    exact ⟨hs, h.symm⟩
  · rw [tadd, if_neg hs] at h
    exact absurd h (by simp)

theorem stackSum_ok_shape {L : List Tensor} {c : Tensor}
    (hok : stackSum L = .ok c) : ∀ t ∈ L, t.shape = c.shape := by
  cases L with
  | nil => simp [stackSum] at hok
  | cons t0 ts =>
    simp only [stackSum] at hok
    split at hok
    · rename_i hall
      have hc : c.shape = t0.shape := by
        rw [Except.ok.injEq] at hok
        rw [← hok]
      intro t ht
      rw [List.mem_cons] at ht
      rcases ht with ht | ht
      · rw [ht, hc]
      · rw [List.all_eq_true] at hall
        rw [hc]
        simpa using hall t ht
    · exact absurd hok (by simp)

/-- When every weight is zero (and the tensors involved are well formed),
one iteration of the merge loop returns the global parameter unchanged. -/
theorem merge_row_zero {ws : List ℚ} {pnts opnts : List (String × Tensor)}
    {gname : String} {gparam : Tensor} {nm : String} {v : Tensor}
    (hok : merge_row ws (pnts, opnts, (gname, gparam)) = .ok (nm, v))
    (hws : ∀ w ∈ ws, w = 0)
    (hg : gparam.wf)
    (hp : ∀ p ∈ pnts, p.2.wf) (ho : ∀ p ∈ opnts, p.2.wf) :
    nm = gname ∧ v = gparam := by
  obtain ⟨pt0, rest, raw, computed, new_param, hpnts, hnm, hlen, hraw, hshape,
    hstack, hadd, hv⟩ := merge_row_ok_parts hok
  refine ⟨hnm, ?_⟩
  have hcshape : gparam.shape = computed.shape := (tadd_ok_parts hadd).1
  have hwprops : ∀ t ∈ (ws.zip raw).map (fun p => tsmul p.1 p.2),
      (∀ x ∈ t.data, x = 0) ∧ gparam.data.length ≤ t.data.length := by
    intro t ht
    have htshape : t.shape = computed.shape := stackSum_ok_shape hstack t ht
    rw [List.mem_map] at ht
    obtain ⟨⟨w, r⟩, hwr, hteq⟩ := ht
    have hw0 : w = 0 := hws w (List.mem_zip hwr).1
    have hr : r ∈ raw := (List.mem_zip hwr).2
    obtain ⟨pq, hpq, hsub⟩ := mapME_ok_mem hraw r hr
    obtain ⟨hsh, hreq⟩ := tsub_ok_parts hsub
    have hpwf : pq.1.2.wf := hp pq.1 (List.mem_zip hpq).1
    have howf : pq.2.2.wf := ho pq.2 (List.mem_zip hpq).2
    constructor
    · intro x hx
      rw [← hteq] at hx
      simp only [tsmul, List.mem_map] at hx
      obtain ⟨y, _, hxy⟩ := hx
      rw [← hxy, hw0, zero_mul]
    · have ht1 : t.data.length = r.data.length := by
        rw [← hteq]
        simp [tsmul]
      have hrlen : r.data.length = pq.1.2.shape.prod := by
        rw [hreq]
        simp only [List.length_zipWith]
        rw [Tensor.wf] at hpwf howf
        rw [hpwf, howf, ← hsh, min_self]
      have hrshape : r.shape = pq.1.2.shape := by rw [hreq]
      have htshape' : t.shape = r.shape := by
        rw [← hteq]
        simp [tsmul]
      have : pq.1.2.shape.prod = gparam.data.length := by
        rw [Tensor.wf] at hg
        rw [hg, ← hrshape, ← htshape', htshape, ← hcshape]
      rw [ht1, hrlen, this]
  obtain ⟨hczero, hclen⟩ := stackSum_zeros hstack hwprops
  have hnew : new_param = gparam := by
    have := (tadd_ok_parts hadd).2
    rw [this, zipWith_add_right_zero hczero hclen]
  rw [hv]
  by_cases hbn : containsBn nm = true
  · rw [if_pos hbn]
  · rw [if_neg hbn, hnew]

theorem renormalize_zeros (k : Nat) :
    renormalize (List.replicate k 0) = List.replicate k 0 := by
  simp [renormalize]


theorem rate_ratios_of_zero_total (tr : RateTracker) (ids : List Nat)
    (htotal : tr.get_rate_total = .ok 0) :
    rate_ratios_of tr ids = .ok (List.replicate ids.length 0) := by
  simp only [rate_ratios_of, htotal]
  exact mapME_const_ok (fun cid _ => by rw [if_neg (lt_irrefl (0 : ℚ))])

theorem raw_weights_zero (n : Nat) (rs : List ℚ) (h : ∀ r ∈ rs, r = 0) :
    raw_weights n rs = .ok (List.replicate rs.length 0) := by
  rw [raw_weights]
  exact mapME_const_ok (fun r hr => by rw [if_neg (by rw [h r hr]; exact lt_irrefl 0)])

theorem round_weights_zero_total (n : Nat) (tr : RateTracker) (ids : List Nat)
    (htotal : tr.get_rate_total = .ok 0) :
    round_weights n tr ids = .ok (List.replicate ids.length 0) := by
  have h1 := rate_ratios_of_zero_total tr ids htotal
  have h2 := raw_weights_zero n (List.replicate ids.length (0 : ℚ))
    (fun r hr => List.eq_of_mem_replicate hr)
  simp only [round_weights, h1, h2, List.length_replicate]
  rw [renormalize_zeros]

/-- Claim C8: when the total tracked rate is 0, every rate ratio defaults to 0,
every (raw and renormalized) weight is 0, and a completed round returns
the global model unchanged (given architecture-consistent, well-formed
updates). -/
theorem C8_zero_rate_total_noop (n : Nat) (now : ℚ) (tr : RateTracker)
    (g : List (String × Tensor)) (ver : Nat) (updates : List ClientUpdate)
    (tr' : RateTracker) (out : List (String × Tensor))
    (htotal : tr.get_rate_total = .ok 0)
    (hok : aggregation_func n now tr g ver updates = .ok (tr', out))
    (hglen : ∀ u ∈ updates,
      u.new_params.length = g.length ∧ u.old_params.length = g.length)
    (hgwf : ∀ p ∈ g, p.2.wf)
    (huwf : ∀ u ∈ updates,
      (∀ p ∈ u.new_params, p.2.wf) ∧ (∀ p ∈ u.old_params, p.2.wf)) :
    rate_ratios_of tr (updates.map (fun u => u.client_id)) =
      .ok (List.replicate updates.length 0) ∧
    round_weights n tr (updates.map (fun u => u.client_id)) =
      .ok (List.replicate updates.length 0) ∧
    out = g := by
  have hr := rate_ratios_of_zero_total tr (updates.map (fun u => u.client_id)) htotal
  have hw := round_weights_zero_total n tr (updates.map (fun u => u.client_id)) htotal
  rw [List.length_map] at hr hw
  refine ⟨hr, hw, ?_⟩
  obtain ⟨hne, ws, hws, hmap, htr⟩ := aggregation_func_ok_parts hok
  rw [hw] at hws
  injection hws with hws
  subst hws
  have hnewlen : ∀ l ∈ updates.map (fun u => u.new_params), l.length = g.length := by
    intro l hl
    rw [List.mem_map] at hl
    obtain ⟨u, hu, rfl⟩ := hl
    exact (hglen u hu).1
  have holdlen : ∀ l ∈ updates.map (fun u => u.old_params), l.length = g.length := by
    intro l hl
    rw [List.mem_map] at hl
    obtain ⟨u, hu, rfl⟩ := hl
    exact (hglen u hu).2
  have hnem : updates.map (fun u => u.new_params) ≠ [] := by simpa using hne
  have hoem : updates.map (fun u => u.old_params) ≠ [] := by simpa using hne
  have hAlen : (pyZipStar (updates.map (fun u => u.new_params))).length = g.length :=
    pyZipStar_length_const hnem hnewlen
  have hBlen : (pyZipStar (updates.map (fun u => u.old_params))).length = g.length :=
    pyZipStar_length_const hoem holdlen
  have houtlen : out.length = g.length := by
    rw [mapME_ok_length hmap]
    simp [zip3, List.length_zip, hAlen, hBlen]
  apply List.ext_get?'
  intro i hi
  rw [houtlen, max_self] at hi
  have hgi : ∃ gname gval, g.get? i = some (gname, gval) := by
    rw [List.get?_eq_get hi]
    exact ⟨(g.get ⟨i, hi⟩).1, (g.get ⟨i, hi⟩).2, rfl⟩
  obtain ⟨gname, gval, hgi⟩ := hgi
  have hA := pyZipStar_get?_eq hnem hnewlen hi
  have hB := pyZipStar_get?_eq hoem holdlen hi
  have hrow := zip3_get?_some.mpr ⟨hA, hB, hgi⟩
  obtain ⟨b, hb, hmr⟩ := mapME_ok_get hmap i _ hrow
  obtain ⟨bn, bv⟩ := b
  have hpwf : ∀ p ∈ (updates.map (fun u => u.new_params)).filterMap
      (fun l => l.get? i), p.2.wf := by
    intro p hp'
    obtain ⟨l, hl, hpl⟩ := mem_filterMap_get? hp'
    rw [List.mem_map] at hl
    obtain ⟨u, hu, rfl⟩ := hl
    exact (huwf u hu).1 p hpl
  have howf : ∀ p ∈ (updates.map (fun u => u.old_params)).filterMap
      (fun l => l.get? i), p.2.wf := by
    intro p hp'
    obtain ⟨l, hl, hpl⟩ := mem_filterMap_get? hp'
    rw [List.mem_map] at hl
    obtain ⟨u, hu, rfl⟩ := hl
    exact (huwf u hu).2 p hpl
  have hz := merge_row_zero hmr
    (fun w hw0 => List.eq_of_mem_replicate hw0)
    (hgwf (gname, gval) (List.get?_mem hgi)) hpwf howf
  rw [hb, hgi, hz.1, hz.2]

/-- Witness for C8: a first round on a fresh tracker (total rate 0) with a
nonzero submitted delta leaves the global model unchanged. -/
theorem C8_witness :
    rate_ratios_of (RateTracker.mk0 5) [0] = .ok (List.replicate 1 0) ∧
    round_weights 1 (RateTracker.mk0 5) [0] = .ok (List.replicate 1 0) ∧
    ([("conv.weight", tval 1)] : List (String × Tensor)) = exG :=
  C8_zero_rate_total_noop 1 100 (RateTracker.mk0 5) exG 0 [exU0]
    ⟨5, [(0, [100])]⟩ [("conv.weight", tval 1)]
    (by simp [RateTracker.get_rate_total, RateTracker.mk0, mapME])
    (by simp [aggregation_func, round_weights, rate_ratios_of,
      RateTracker.get_rate_total, RateTracker.get_rate, RateTracker.window,
      RateTracker.mk0, List.lookup, mapME, raw_weights, renormalize,
      RateTracker.track_update, setWindow, zip3, pyZipStar, merge_row, tsub,
      tsmul, tadd, stackSum, containsBn, containsSub, startsWithChars,
      sanity_check, tval, exG, exU0, List.replicate])
    (by decide) (by decide) (by decide)
